import Mathlib

/-!
Verification of the nand2tetris-rs toolchain (Hack assembler, VM translator,
Jack tokenizer and Jack-to-VM code generator) against its specification.

The Rust sources are shallowly embedded: each Rust function that the claims
touch is translated into a Lean definition with the same name and the same
behaviour, with `writeln!` calls modelled as appending one line (`String`) to
an output list, Rust `HashMap` symbol tables modelled as association lists
(lookup returns the most recent binding, exactly like `HashMap::insert`
followed by `get`), and panicking operations (`unwrap`, `unreachable!`,
failing table lookups) modelled with `Option`.
-/

namespace N2T

/-! ## Decimal rendering of naturals

Rust's `{}` formatting of a `u32` and Lean's `Nat.repr` both print the
decimal representation.  The embedding uses `Nat.repr` for every number the
Rust code formats.  The lemmas below characterise `Nat.repr` (digits only,
recoverable value) so that generated labels with distinct counter values can
be proved to be distinct strings. -/

/-- Numeric value of a decimal digit character. -/
def digitVal (c : Char) : Nat := c.toNat - 48

/-- Value of a list of decimal digit characters (most significant first). -/
def charsVal (cs : List Char) : Nat := cs.foldl (fun a c => a * 10 + digitVal c) 0

/-- Reference decimal rendering: digit characters of `n`, most significant first. -/
def decChars (n : Nat) : List Char :=
  if _h : n < 10 then [Nat.digitChar n]
  else decChars (n / 10) ++ [Nat.digitChar (n % 10)]
  termination_by n
  decreasing_by exact Nat.div_lt_self (by omega) (by omega)

/-- Extract the value of the trailing digit run of a line, ignoring the final
character (i.e. of `"...Xd₁…dₖ)"` with `X` not a digit, returns `d₁…dₖ` as a
number).  Used to tell generated labels with distinct counters apart. -/
def trailNat (s : String) : Nat :=
  charsVal ((s.data.dropLast.reverse.takeWhile Char.isDigit).reverse)

/-! ## Shared helpers

All indices the Rust code computes (`str::find`, `len`) are byte based while
`utils::substr` counts chars; every string these translators index into is
ASCII, where the two coincide, so the embedding uses char indices throughout. -/

/-- `utils::substr` (src/utils.rs:5): chars of `s`, skip `start`, take `len`. -/
def substr (s : String) (start len : Nat) : String := ⟨(s.data.drop start).take len⟩

/-- `str::find(c)`: index of the first occurrence of `c`. -/
def findChar (s : String) (c : Char) : Option Nat := s.data.findIdx? (· = c)

/-- Rust `str::trim` (`Char.isWhitespace` agrees with Rust's
`char::is_whitespace` on the ASCII whitespace these sources contain). -/
def trim (s : String) : String :=
  ⟨((s.data.dropWhile Char.isWhitespace).reverse.dropWhile Char.isWhitespace).reverse⟩

/-- Rust `str::starts_with`. -/
def startsWith (s pat : String) : Bool := pat.data.isPrefixOf s.data

/-- Rust `str::split(c)` on a char list: always at least one (possibly
empty) part. -/
def splitChar (c : Char) : List Char → List (List Char)
  | [] => [[]]
  | x :: xs =>
      if x = c then [] :: splitChar c xs
      else match splitChar c xs with
        | [] => [[x]]
        | y :: ys => (x :: y) :: ys

/-- Rust `str::split(c)`. -/
def splitOnChar (s : String) (c : Char) : List String :=
  (splitChar c s.data).map (fun l => (⟨l⟩ : String))

/-- Rust `str::parse::<u32>()`: optional leading `+`, then one or more ASCII
digits, value below `2^32`. -/
def parseU32 (s : String) : Option Nat :=
  let t : String := if startsWith s "+" then ⟨s.data.drop 1⟩ else s
  if t.length ≠ 0 ∧ t.data.all Char.isDigit then
    let v := charsVal t.data
    if v < 4294967296 then some v else none
  else none

/-- Input-line filtering shared verbatim by `Assembler::new`
(src/assembler.rs:123-133) and `SingleVmTranslator::new`
(src/vm_translator.rs:171-181): trim each line, drop blank lines and lines
starting with `/`, cut a line at its first `/` (and trim the kept part). -/
def stripLines (ls : List String) : List String :=
  ls.filterMap (fun line =>
    let l := trim line
    if l.isEmpty then none
    else if startsWith l "/" then none
    else if l.data.contains '/' then some (trim ⟨l.data.takeWhile (· ≠ '/')⟩)
    else some l)

/-! ## Hack assembler (src/assembler.rs) -/

namespace Asm

/-- `COMP_TABLE` (src/assembler.rs:26). -/
def COMP_TABLE : String → Option String
  | "0" => some "0101010"
  | "1" => some "0111111"
  | "-1" => some "0111010"
  | "D" => some "0001100"
  | "A" => some "0110000"
  | "!D" => some "0001101"
  | "!A" => some "0110001"
  | "-D" => some "0001111"
  | "-A" => some "0110011"
  | "D+1" => some "0011111"
  | "A+1" => some "0110111"
  | "D-1" => some "0001110"
  | "A-1" => some "0110010"
  | "D+A" => some "0000010"
  | "D-A" => some "0010011"
  | "A-D" => some "0000111"
  | "D&A" => some "0000000"
  | "D|A" => some "0010101"
  | "M" => some "1110000"
  | "!M" => some "1110001"
  | "-M" => some "1110011"
  | "M+1" => some "1110111"
  | "M-1" => some "1110010"
  | "D+M" => some "1000010"
  | "D-M" => some "1010011"
  | "M-D" => some "1000111"
  | "D&M" => some "1000000"
  | "D|M" => some "1010101"
  | _ => none

/-- `DEST_TABLE` (src/assembler.rs:59). -/
def DEST_TABLE : String → Option String
  | "null" => some "000"
  | "M" => some "001"
  | "D" => some "010"
  | "MD" => some "011"
  | "A" => some "100"
  | "AM" => some "101"
  | "AD" => some "110"
  | "AMD" => some "111"
  | _ => none

/-- `JMP_TABLE` (src/assembler.rs:72). -/
def JMP_TABLE : String → Option String
  | "null" => some "000"
  | "JGT" => some "001"
  | "JEQ" => some "010"
  | "JGE" => some "011"
  | "JLT" => some "100"
  | "JNE" => some "101"
  | "JLE" => some "110"
  | "JMP" => some "111"
  | _ => none

/-- `PREDEFINED_SYMBOL_TABLE` (src/assembler.rs:85). -/
def PREDEFINED_SYMBOL_TABLE : List (String × Nat) :=
  [("SP", 0), ("LCL", 1), ("ARG", 2), ("THIS", 3), ("THAT", 4),
   ("R0", 0), ("R1", 1), ("R2", 2), ("R3", 3), ("R4", 4), ("R5", 5), ("R6", 6),
   ("R7", 7), ("R8", 8), ("R9", 9), ("R10", 10), ("R11", 11), ("R12", 12),
   ("R13", 13), ("R14", 14), ("R15", 15), ("SCREEN", 16384), ("KBD", 24576)]

/-- `HashMap::insert`: a new binding shadows any older one (lookup takes the
most recent binding first). -/
def tableInsert (t : List (String × Nat)) (k : String) (v : Nat) : List (String × Nat) :=
  (k, v) :: t

/-- `HashMap::get`. -/
def tableGet (t : List (String × Nat)) (k : String) : Option Nat :=
  (t.find? (fun p => p.1 = k)).map (fun p => p.2)

/-- `Assembler::process_lable` (src/assembler.rs:158-173): first pass.  Walks
the stripped lines keeping a running instruction counter; each `(NAME)` line
is removed and `NAME → current counter` is inserted into the symbol table. -/
def process_lable : List String → Nat → List (String × Nat) → List String × List (String × Nat)
  | [], _, tbl => ([], tbl)
  | line :: rest, current_line, tbl =>
    if startsWith line "(" then
      let symbol := substr line 1 (line.length - 2)
      process_lable rest current_line (tableInsert tbl symbol current_line)
    else
      let (cs, t) := process_lable rest (current_line + 1) tbl
      (line :: cs, t)

/-- Rust `{:016b}` formatting: binary digits, left padded with `0` to 16. -/
def bin16 (n : Nat) : String :=
  let ds := Nat.toDigits 2 n
  ⟨List.replicate (16 - ds.length) '0' ++ ds⟩

/-- `Assembler::parse_a_command` (src/assembler.rs:190-204).  Returns the
updated symbol table, updated allocation address, and the emitted line. -/
def parse_a_command (tbl : List (String × Nat)) (alloc : Nat) (command : String) :
    List (String × Nat) × Nat × String :=
  match parseU32 command with
  | some v => (tbl, alloc, bin16 v)
  | none =>
    match tableGet tbl command with
    | some address => (tbl, alloc, bin16 address)
    | none => (tableInsert tbl command alloc, alloc + 1, bin16 alloc)

/-- `Assembler::parse_c_command` (src/assembler.rs:207-237).  `equal_loc`
starts at 0 and `semicolon_loc` at the line length, each updated only when
`=` / `;` is found; note the comp substring takes
`semicolon_loc - equal_loc + 1` chars.  A failed table lookup (`unwrap` on
`None`) is a panic, modelled as `none`. -/
def parse_c_command (command : String) : Option String :=
  let equal_loc := (findChar command '=').getD 0
  let semicolon_loc := (findChar command ';').getD command.length
  let dest := match findChar command '=' with
    | some i => substr command 0 i
    | none => "null"
  let jmp := match findChar command ';' with
    | some i => substr command (i + 1) (command.length - i)
    | none => "null"
  let comp := if dest = "null" then substr command 0 semicolon_loc
    else substr command (equal_loc + 1) (semicolon_loc - equal_loc + 1)
  do
    let c ← COMP_TABLE comp
    let d ← DEST_TABLE dest
    let j ← JMP_TABLE jmp
    pure ("111" ++ c ++ d ++ j)

/-- `Assembler::parse` (src/assembler.rs:176-186): second pass over the
label-free lines. -/
def parse : List String → List (String × Nat) → Nat → List String →
    Option (List (String × Nat) × Nat × List String)
  | [], tbl, alloc, out => some (tbl, alloc, out)
  | line :: rest, tbl, alloc, out =>
    if startsWith line "@" then
      match parse_a_command tbl alloc (substr line 1 line.length) with
      | (tbl', alloc', b) => parse rest tbl' alloc' (out ++ [b])
    else
      match parse_c_command line with
      | some b => parse rest tbl alloc (out ++ [b])
      | none => none

/-- `Assembler::new` + `Assembler::run` (src/assembler.rs:25-155): strip the
input lines, resolve labels (pass 1, starting from the predefined symbols),
then translate (pass 2, variable allocation starting at 16).  Returns the
final symbol table, the next free allocation address, and the output lines. -/
def assemblerRun (lines : List String) : Option (List (String × Nat) × Nat × List String) :=
  let codes := stripLines lines
  match process_lable codes 0 PREDEFINED_SYMBOL_TABLE with
  | (codes2, tbl) => parse codes2 tbl 16 []

/-- Symbol table after pass 1 only. -/
def pass1Table (lines : List String) : List (String × Nat) :=
  (process_lable (stripLines lines) 0 PREDEFINED_SYMBOL_TABLE).2

end Asm

/-! ## VM translator (src/vm_translator.rs)

Each `writeln!` of the Rust code is one element of the output line list.
`writeln!(.., "M={}M\n", ..)` in the unary-arithmetic case carries an extra
embedded newline, producing a blank line; it is modelled as two list
elements.  Indexing `command[i]` into the split line and `unwrap`/
`unreachable!` panics are modelled with `Option`. -/

namespace VmT

/-- `ARITH_TABLE` (src/vm_translator.rs:24). -/
def ARITH_TABLE : String → Option String
  | "not" => some "!"
  | "neg" => some "-"
  | "add" => some "+"
  | "sub" => some "-"
  | "and" => some "&"
  | "or" => some "|"
  | "eq" => some "JNE"
  | "lt" => some "JLE"
  | "gt" => some "JGE"
  | _ => none

/-- `SEGMENT_TABLE` (src/vm_translator.rs:38). -/
def SEGMENT_TABLE : String → Option String
  | "local" => some "LCL"
  | "argument" => some "ARG"
  | "this" => some "THIS"
  | "that" => some "THAT"
  | "temp" => some "5"
  | "pointer" => some "3"
  | _ => none

/-- `push_d` (src/vm_translator.rs:479). -/
def push_d : List String := ["@SP", "A=M", "M=D", "@SP", "M=M+1"]

/-- The label-definition line `({command}_{symbol_index})` a comparison
translation ends with (src/vm_translator.rs:255). -/
def compLabelLine (command : String) (i : Nat) : String :=
  "(" ++ command ++ "_" ++ Nat.repr i ++ ")"

/-- The return-address label name `End${f}${return_index}` of a call
(src/vm_translator.rs:379). -/
def retLabelName (f : String) (i : Nat) : String :=
  "End$" ++ f ++ "$" ++ Nat.repr i

/-- The return-address label-definition line of a call
(src/vm_translator.rs:417). -/
def retLabelLine (f : String) (i : Nat) : String :=
  "(" ++ retLabelName f i ++ ")"

/-- `SingleVmTranslator::parse_c_arithmetic` (src/vm_translator.rs:214-260):
the emitted lines plus the updated `symbol_index`. -/
def parse_c_arithmetic (symbol_index : Nat) (command : String) :
    Option (List String × Nat) :=
  if command = "not" ∨ command = "neg" then do
    let op ← ARITH_TABLE command
    pure (["@SP", "A=M-1", "M=" ++ op ++ "M", ""], symbol_index)
  else if command = "add" ∨ command = "sub" ∨ command = "and" ∨ command = "or" then do
    let op ← ARITH_TABLE command
    pure (["@SP", "AM=M-1", "D=M", "A=A-1", "M=M" ++ op ++ "D"], symbol_index)
  else if command = "eq" ∨ command = "gt" ∨ command = "lt" then do
    let j ← ARITH_TABLE command
    pure (["@SP", "AM=M-1", "D=M", "A=A-1", "D=M-D", "M=0",
           "@" ++ command ++ "_" ++ Nat.repr symbol_index,
           "D;" ++ j,
           "@SP", "A=M-1", "M=-1",
           compLabelLine command symbol_index], symbol_index + 1)
  else none

/-- `SingleVmTranslator::parse_c_push` (src/vm_translator.rs:262-299). -/
def parse_c_push (vm_filename : String) (command : List String) : Option (List String) := do
  let c1 ← command.get? 1
  let pre ← match c1 with
    | "constant" => do
        let c2 ← command.get? 2
        pure ["@" ++ c2, "D=A"]
    | "local" | "argument" | "this" | "that" => do
        let c2 ← command.get? 2
        let seg ← SEGMENT_TABLE c1
        pure ["@" ++ c2, "D=A", "@" ++ seg, "A=M+D", "D=M"]
    | "temp" | "pointer" => do
        let c2 ← command.get? 2
        let seg ← SEGMENT_TABLE c1
        pure ["@" ++ c2, "D=A", "@" ++ seg, "A=A+D", "D=M"]
    | "static" => do
        let c2 ← command.get? 2
        pure ["@" ++ vm_filename ++ "." ++ c2, "D=M"]
    | _ => none
  pure (pre ++ push_d)

/-- `SingleVmTranslator::parse_c_pop` (src/vm_translator.rs:301-345).  Note
the `static` arm emits the bare line `R15` (src/vm_translator.rs:332), with
no `@`. -/
def parse_c_pop (vm_filename : String) (command : List String) : Option (List String) := do
  let c1 ← command.get? 1
  let pre ← match c1 with
    | "local" | "argument" | "this" | "that" => do
        let c2 ← command.get? 2
        let seg ← SEGMENT_TABLE c1
        pure ["@" ++ c2, "D=A", "@" ++ seg, "D=M+D", "@R15", "M=D"]
    | "temp" | "pointer" => do
        let c2 ← command.get? 2
        let seg ← SEGMENT_TABLE c1
        pure ["@" ++ c2, "D=A", "@" ++ seg, "D=A+D", "@R15", "M=D"]
    | "static" => do
        let c2 ← command.get? 2
        pure ["@" ++ vm_filename ++ "." ++ c2, "D=A", "R15", "M=D"]
    | _ => none
  pure (pre ++ ["@SP", "AM=M-1", "D=M", "@R15", "A=M", "M=D"])

/-- `SingleVmTranslator::parse_c_function` (src/vm_translator.rs:364-376):
the emitted lines plus the new `current_func`. -/
def parse_c_function (command : List String) : Option (List String × String) := do
  let c1 ← command.get? 1
  let c2 ← command.get? 2
  let k ← parseU32 c2
  pure (("(" ++ c1 ++ ")") ::
    (List.replicate k ["@SP", "A=M", "M=0", "@SP", "M=M+1"]).flatten, c1)

/-- `SingleVmTranslator::parse_c_call` (src/vm_translator.rs:378-420):
the emitted lines plus the updated `return_index`. -/
def parse_c_call (return_index : Nat) (command : List String) :
    Option (List String × Nat) := do
  let c1 ← command.get? 1
  let c2 ← command.get? 2
  let n ← parseU32 c2
  let label := retLabelName c1 return_index
  pure ((["@" ++ label, "D=A"] ++ push_d
    ++ (["LCL", "ARG", "THIS", "THAT"].map (fun s => ["@" ++ s, "D=M"] ++ push_d)).flatten
    ++ ["@" ++ Nat.repr (n + 5), "D=A", "@SP", "D=M-D", "@ARG", "M=D"]
    ++ ["@SP", "D=M", "@LCL", "M=D"]
    ++ ["@" ++ c1, "0;JMP"]
    ++ [retLabelLine c1 return_index]), return_index + 1)

/-- `SingleVmTranslator::parse_c_return` (src/vm_translator.rs:422-476). -/
def parse_c_return_lines : List String :=
  ["@LCL", "D=M", "@R15", "M=D",
   "@5", "D=A", "@R15", "A=M-D", "D=M", "@R14", "M=D",
   "@SP", "AM=M-1", "D=M", "@ARG", "A=M", "M=D",
   "@ARG", "D=M+1", "@SP", "M=D",
   "@R15", "A=M-1", "D=M", "@THAT", "M=D"]
  ++ ((["THIS", "ARG", "LCL"].enum.map (fun p =>
        ["@" ++ Nat.repr (p.1 + 2), "D=A", "@R15", "A=M-D", "D=M", "@" ++ p.2, "M=D"])).flatten)
  ++ ["@R14", "A=M", "0;JMP"]

/-- `SingleVmTranslator` mutable state (src/vm_translator.rs:155-162),
without the input `codes` (passed separately). -/
structure TState where
  vm_filename : String
  output : List String
  symbol_index : Nat
  return_index : Nat
  current_func : String
  deriving Repr, DecidableEq

/-- One iteration of the dispatch loop in `SingleVmTranslator::parse`
(src/vm_translator.rs:194-212), after the line has been split on spaces
(`parts` is never `[]`: Rust `split` always yields at least one part, and
`parts[0]` on an impossible empty split would panic). -/
def stepParts (st : TState) (parts : List String) : Option TState :=
  match parts with
  | [] => none
  | p0 :: rest =>
    if p0 = "push" then
      (parse_c_push st.vm_filename (p0 :: rest)).map
        (fun d => { st with output := st.output ++ d })
    else if p0 = "pop" then
      (parse_c_pop st.vm_filename (p0 :: rest)).map
        (fun d => { st with output := st.output ++ d })
    else if p0 = "label" then
      ((p0 :: rest).get? 1).map
        (fun c1 => { st with output := st.output ++
          ["(" ++ st.current_func ++ "$" ++ c1 ++ ")"] })
    else if p0 = "goto" then
      ((p0 :: rest).get? 1).map
        (fun c1 => { st with output := st.output ++
          ["@" ++ st.current_func ++ "$" ++ c1, "0;JMP"] })
    else if p0 = "if-goto" then
      ((p0 :: rest).get? 1).map
        (fun c1 => { st with output := st.output ++
          ["@SP", "AM=M-1", "D=M", "@" ++ st.current_func ++ "$" ++ c1, "D;JNE"] })
    else if p0 = "function" then
      (parse_c_function (p0 :: rest)).map
        (fun d => { st with output := st.output ++ d.1, current_func := d.2 })
    else if p0 = "call" then
      (parse_c_call st.return_index (p0 :: rest)).map
        (fun d => { st with output := st.output ++ d.1, return_index := d.2 })
    else if p0 = "return" then
      some { st with output := st.output ++ parse_c_return_lines }
    else
      (parse_c_arithmetic st.symbol_index p0).map
        (fun d => { st with output := st.output ++ d.1, symbol_index := d.2 })

/-- One iteration of `SingleVmTranslator::parse` on a raw code line. -/
def step (st : TState) (code : String) : Option TState :=
  stepParts st (splitOnChar code ' ')

/-- The whole of `SingleVmTranslator::parse`. -/
def parseAll (st : TState) : List String → Option TState
  | [] => some st
  | code :: restCodes => do
      let st' ← step st code
      parseAll st' restCodes

/-- `SingleVmTranslator::new` + `parse` for one file given as its stem and
raw lines (filesystem reading is outside the embedding's scope). -/
def singleVmRun (stem : String) (content : List String) (si ri : Nat) : Option TState :=
  parseAll
    { vm_filename := stem, output := [], symbol_index := si, return_index := ri,
      current_func := "" }
    (stripLines content)

/-- Bootstrap prologue emitted for directory (multi-file) inputs
(src/vm_translator.rs:93-137). -/
def bootstrapLines : List String :=
  ["@256", "D=A", "@SP", "M=D"]
  ++ ((["LCL", "ARG", "THIS", "THAT"].enum.map (fun p =>
        ["@" ++ Nat.repr (p.1 + 1), "D=A", "@" ++ p.2, "M=D"])).flatten)
  ++ ["@bootstrap", "D=A"] ++ push_d
  ++ ((["LCL", "ARG", "THIS", "THAT"].map (fun s => ["@" ++ s, "D=M"] ++ push_d)).flatten)
  ++ ["@5", "D=A", "@SP", "D=M-D", "@ARG", "M=D"]
  ++ ["@SP", "D=M", "@LCL", "M=D"]
  ++ ["@Sys.init", "0;JMP", "(bootstrap)"]

/-- The per-file loop of `VmTranslator::run` (src/vm_translator.rs:139-147):
each file starts from the PREVIOUS file's `symbol_index`/`return_index`, and
the file outputs are concatenated.  Returns output and final counters. -/
def translateFiles : Nat → Nat → List (String × List String) →
    Option (List String × Nat × Nat)
  | si, ri, [] => some ([], si, ri)
  | si, ri, (stem, content) :: rest => do
      let st ← singleVmRun stem content si ri
      let (out, si', ri') ← translateFiles st.symbol_index st.return_index rest
      pure (st.output ++ out, si', ri')

/-- `VmTranslator::run` (src/vm_translator.rs:92-148): bootstrap (for a
directory input) followed by the translation of every file, counters
threaded across files. -/
def vmTranslatorRun (multi_files : Bool) (files : List (String × List String)) :
    Option (List String) := do
  let (out, _, _) ← translateFiles 0 0 files
  pure ((if multi_files then bootstrapLines else []) ++ out)

/-! ### Traces of the generated fresh labels

`codeCompLabelsP` names the comparison label-definition lines one dispatch
step emits (exactly one, `({op}_{symbol_index})`, when the command word is
`eq`/`gt`/`lt`, else none), and `codeRetLabelsP` the return-address
label-definition line a `call` emits.  The list-level versions thread the
counters the way `parse` and `VmTranslator::run` do. -/

def codeCompLabelsP (si : Nat) : List String → List String
  | p0 :: _ => if p0 = "eq" ∨ p0 = "gt" ∨ p0 = "lt" then [compLabelLine p0 si] else []
  | [] => []

def codeRetLabelsP (ri : Nat) : List String → List String
  | p0 :: c1 :: c2 :: _ =>
      if p0 = "call" ∧ (parseU32 c2).isSome then [retLabelLine c1 ri] else []
  | _ => []

/-- Concatenate the label chunks of consecutive items, each chunk starting
from the counter value the previous chunks advanced to. -/
def chunksAppend {α : Type} (f : Nat → α → List String) : Nat → List α → List String
  | _, [] => []
  | n, x :: xs => f n x ++ chunksAppend f (n + (f n x).length) xs

def codesCompLabels (si : Nat) (codes : List String) : List String :=
  chunksAppend (fun n c => codeCompLabelsP n (splitOnChar c ' ')) si codes

def codesRetLabels (ri : Nat) (codes : List String) : List String :=
  chunksAppend (fun n c => codeRetLabelsP n (splitOnChar c ' ')) ri codes

def filesCompLabels (si : Nat) (files : List (String × List String)) : List String :=
  chunksAppend (fun n p => codesCompLabels n (stripLines p.2)) si files

def filesRetLabels (ri : Nat) (files : List (String × List String)) : List String :=
  chunksAppend (fun n p => codesRetLabels n (stripLines p.2)) ri files

end VmT

/-! ## Jack tokenizer (src/jack_tokenizer.rs)

Rust's `char::is_numeric` / `char::is_alphanumeric` are Unicode predicates;
they agree with Lean's `Char.isDigit` / `Char.isAlphanum` on ASCII, which is
all the claims exercise. -/

namespace Tok

/-- `KEYWORDS` (src/jack_tokenizer.rs:22). -/
def KEYWORDS : List String :=
  ["class", "constructor", "function", "method", "field", "static", "var",
   "int", "char", "boolean", "void", "true", "false", "null", "this",
   "let", "do", "if", "else", "while", "return"]

/-- `SYMBOLS` (src/jack_tokenizer.rs:48). -/
def SYMBOLS : List Char :=
  ['{', '}', '(', ')', '[', ']', '.', ',', ';', '+', '-', '*', '/', '&', '|',
   '<', '>', '=', '~']

/-- `str::find(pat)` for a substring pattern: char index of the first
occurrence. -/
def findSubstring (s pat : String) : Option Nat :=
  (List.range (s.length + 1)).find? (fun i => pat.data.isPrefixOf (s.data.drop i))

/-- Comment handling in `JackTokenizer::new` (src/jack_tokenizer.rs:57-93),
one step per input line, carrying the `multi_comments` flag.  Inside an open
block comment, lines without `*/` are dropped; on the closing line the text
after `*/` is kept.  Otherwise: blank lines and `//` lines are dropped, a
line with `//` is cut there, a line with `/*` keeps the prefix (and, when
`*/` closes on the same line, the suffix), other lines are kept whole. -/
def stripJack : Bool → List String → List String
  | _, [] => []
  | true, line :: rest =>
      let l := trim line
      match findSubstring l "*/" with
      | none => stripJack true rest
      | some idx =>
          trim (substr l (idx + 2) (l.length - (idx + 2))) :: stripJack false rest
  | false, line :: rest =>
      let l := trim line
      if l.isEmpty then stripJack false rest
      else if startsWith l "//" then stripJack false rest
      else if (findSubstring l "//").isSome then
        trim (substr l 0 ((findSubstring l "//").getD 0)) :: stripJack false rest
      else
        match findSubstring l "/*" with
        | some start =>
          match findSubstring l "*/" with
          | none => trim (substr l 0 start) :: stripJack true rest
          | some e =>
              (trim (substr l 0 start) ++
                trim (substr l (e + 2) (l.length - e - 2))) :: stripJack false rest
        | none => l :: stripJack false rest

/-- `TokenType` (src/jack_tokenizer.rs:259). -/
inductive TokenType
  | symbol
  | stringConstant
  | integerConstant
  | keyword
  | identifier
  deriving Repr, DecidableEq

/-- `Token` (src/jack_tokenizer.rs:215), without the XML `form` field (the
debug dump is outside the compilation core). -/
structure Token where
  category : TokenType
  value : String
  line : Nat
  deriving Repr, DecidableEq

/-- The scanning loop of `JackTokenizer::tokenize`
(src/jack_tokenizer.rs:122-172) over the chars of one (trimmed) line, `i`
being the index of the line in the stripped code lines.  A `"` opens a
string constant that ends at the next `"` or, unterminated, at the end of
the line — there is no error path.
The loop is phrased with an explicit `fuel` bound on the number of
iterations so that it is structurally recursive; every iteration consumes at
least one char, so the line length passed by `tokenize` makes the `fuel = 0`
case unreachable. -/
def tokenizeChars (i : Nat) : Nat → List Char → List Token
  | 0, _ => []
  | _ + 1, [] => []
  | fuel + 1, c :: cs =>
    if c = ' ' then tokenizeChars i fuel cs
    else if SYMBOLS.contains c then
      { category := .symbol, value := ⟨[c]⟩, line := i } :: tokenizeChars i fuel cs
    else if c = '"' then
      let word := cs.takeWhile (fun x => x ≠ '"')
      { category := .stringConstant, value := ⟨word⟩, line := i } ::
        tokenizeChars i fuel (cs.drop (word.length + 1))
    else if c.isDigit then
      { category := .integerConstant, value := ⟨c :: cs.takeWhile Char.isDigit⟩, line := i } ::
        tokenizeChars i fuel (cs.dropWhile Char.isDigit)
    else
      let word : String := ⟨c :: cs.takeWhile Char.isAlphanum⟩
      (if KEYWORDS.contains word then
        { category := TokenType.keyword, value := word, line := i }
      else
        { category := TokenType.identifier, value := word, line := i }) ::
        tokenizeChars i fuel (cs.dropWhile Char.isAlphanum)

/-- `JackTokenizer::tokenize` (src/jack_tokenizer.rs:112-174): scan each
stripped line; a token's `line` is the index of its line in the stripped
code vector. -/
def tokenize (codes : List String) : List Token :=
  (codes.enum.map (fun p => tokenizeChars p.1 (trim p.2).data.length (trim p.2).data)).flatten

/-- `JackTokenizer::new` followed by `tokenize`: the token stream of a raw
`.jack` source given as its lines. -/
def jackTokenize (lines : List String) : List Token :=
  tokenize (stripJack false lines)

end Tok

/-! ## Jack AST (src/ast.rs) and code generator (src/vm_writer.rs)

The AST mirrors src/ast.rs; `Vec<T>` fields inside the two recursive groups
are rendered as the mutual list types `OpTermList` / `ExpressionList` /
`StatementList` (isomorphic to `List`) so that the recursive `write_vm`
functions are structurally recursive and computable by the kernel.
`Rust VarType::Class(String)` is the constructor `VarType.cls`. -/

namespace Jack

/-- `VarKind` (src/symbol_table.rs:71). -/
inductive VarKind
  | static
  | field
  | argument
  | «local»
  deriving Repr, DecidableEq

/-- `VarType` (src/ast.rs:34). -/
inductive VarType
  | int
  | char
  | boolean
  | cls (name : String)
  deriving Repr, DecidableEq

/-- `Segment` (src/vm_writer.rs:520). -/
inductive Segment
  | argument
  | «local»
  | static
  | constant
  | this
  | that
  | pointer
  | temp
  deriving Repr, DecidableEq

/-- `impl fmt::Display for Segment` (src/vm_writer.rs:531). -/
def Segment.name : Segment → String
  | .argument => "argument"
  | .«local» => "local"
  | .static => "static"
  | .constant => "constant"
  | .this => "this"
  | .that => "that"
  | .pointer => "pointer"
  | .temp => "temp"

/-- `impl From<VarKind> for Segment` (src/symbol_table.rs:78). -/
def VarKind.toSegment : VarKind → Segment
  | .static => .static
  | .field => .this
  | .argument => .argument
  | .«local» => .«local»

/-- `Var` (src/symbol_table.rs:52). -/
structure Var where
  name : String
  type_ : VarType
  kind : VarKind
  index : Nat
  deriving Repr, DecidableEq

/-- `SymbolTable` (src/symbol_table.rs:7): the name map plus the per-kind
running counters.  The `HashMap<String, Var>` is an entry list with at most
one entry per name; iteration order of a Rust `HashMap` is unspecified, so
any property read off the list order of `table` is only meaningful when at
most one entry satisfies the scan (which holds in every theorem below). -/
structure SymbolTable where
  table : List Var
  kind_index : VarKind → Nat

/-- `SymbolTable::new` (src/symbol_table.rs:13). -/
def SymbolTable.new : SymbolTable := ⟨[], fun _ => 0⟩

/-- `SymbolTable::define` (src/symbol_table.rs:35): insert (replacing any
same-name entry, like `HashMap::insert`) at the kind's current index and
bump that kind's counter. -/
def SymbolTable.define (st : SymbolTable) (name : String) (type_ : VarType)
    (kind : VarKind) : SymbolTable :=
  let index := st.kind_index kind
  { table := st.table.filter (fun v => v.name ≠ name) ++ [Var.mk name type_ kind index],
    kind_index := fun k => if k = kind then index + 1 else st.kind_index k }

/-- `SymbolTable::var_count` (src/symbol_table.rs:42). -/
def SymbolTable.var_count (st : SymbolTable) (kind : VarKind) : Nat := st.kind_index kind

/-- `SymbolTable::get` (src/symbol_table.rs:46). -/
def SymbolTable.get (st : SymbolTable) (name : String) : Option Var :=
  st.table.find? (fun v => v.name = name)

/-- `SubroutineKind` (src/ast.rs:50). -/
inductive SubroutineKind
  | constructor
  | function
  | method
  deriving Repr, DecidableEq

/-- `KeywordConstant` (src/ast.rs:175). -/
inductive KeywordConstant
  | «true»
  | «false»
  | null
  | this
  deriving Repr, DecidableEq

/-- `Op` (src/ast.rs:158); constructor names keep the source's spellings. -/
inductive Op
  | add
  | minus
  | multiply
  | divid
  | and
  | or
  | greater
  | less
  | euqal
  deriving Repr, DecidableEq

/-- `UnaryOp` (src/ast.rs:170). -/
inductive UnaryOp
  | neg
  | not
  deriving Repr, DecidableEq

mutual

/-- `Expression` (src/ast.rs:109). -/
inductive Expression
  | mk (term : Term) (op_terms : OpTermList)

/-- `Vec<OpTerm>`. -/
inductive OpTermList
  | nil
  | cons (head : OpTerm) (tail : OpTermList)

/-- `OpTerm` (src/ast.rs:114). -/
inductive OpTerm
  | mk (op : Op) (term : Term)

/-- `Term` (src/ast.rs:119). -/
inductive Term
  | integerConst (v : Nat)
  | stringConst (v : String)
  | keywordConst (v : KeywordConstant)
  | varName (v : String)
  | array (v : Arr)
  | subRoutineCall (v : SubroutineCall)
  | expression (v : Expression)
  | unaryExpression (v : UnaryExpression)

/-- `Array` (src/ast.rs:130); named `Arr` to avoid Lean's `Array`. -/
inductive Arr
  | mk (name : String) (index : Expression)

/-- `SubroutineCall` (src/ast.rs:135). -/
inductive SubroutineCall
  | internal (v : InternalCall)
  | external (v : ExternalCall)

/-- `InternalCall` (src/ast.rs:140). -/
inductive InternalCall
  | mk (name : String) (args : Args)

/-- `ExternalCall` (src/ast.rs:145): `name` is the receiver before the dot,
`subroutine_name` the name after it. -/
inductive ExternalCall
  | mk (name : String) (subroutine_name : String) (args : Args)

/-- `Args` (src/ast.rs:151). -/
inductive Args
  | mk (v : ExpressionList)

/-- `Vec<Expression>`. -/
inductive ExpressionList
  | nil
  | cons (head : Expression) (tail : ExpressionList)

/-- `UnaryExpression` (src/ast.rs:153). -/
inductive UnaryExpression
  | mk (unary_op : UnaryOp) (term : Term)

end

/-- Length of an `ExpressionList` (`Vec::len`). -/
def ExpressionList.length : ExpressionList → Nat
  | .nil => 0
  | .cons _ t => t.length + 1

/-- `LetStatement` (src/ast.rs:84). -/
structure LetStatement where
  var_name : String
  array_index : Option Expression
  right_expr : Expression

/-- `DoStatement` (src/ast.rs:101). -/
structure DoStatement where
  subroutine_call : SubroutineCall

/-- `ReturnStatement` (src/ast.rs:105). -/
structure ReturnStatement where
  expr : Option Expression

mutual

/-- `Statement` (src/ast.rs:76). -/
inductive Statement
  | letS (v : LetStatement)
  | ifS (v : IfStatement)
  | whileS (v : WhileStatement)
  | doS (v : DoStatement)
  | returnS (v : ReturnStatement)

/-- `Vec<Statement>`. -/
inductive StatementList
  | nil
  | cons (head : Statement) (tail : StatementList)

/-- `Option<Vec<Statement>>` (the `else` branch of an `if`). -/
inductive OptStatementList
  | none
  | some (v : StatementList)

/-- `IfStatement` (src/ast.rs:90). -/
inductive IfStatement
  | mk (cond : Expression) (if_body : StatementList) (else_body : OptStatementList)

/-- `WhileStatement` (src/ast.rs:96). -/
inductive WhileStatement
  | mk (cond : Expression) (body : StatementList)

end

/-- `ClassScope` (src/ast.rs:19). -/
inductive ClassScope
  | static
  | field
  deriving Repr, DecidableEq

/-- `impl From<ClassScope> for VarKind` (src/ast.rs:24). -/
def ClassScope.toVarKind : ClassScope → VarKind
  | .static => .static
  | .field => .field

/-- `ClassVarDec` (src/ast.rs:12). -/
structure ClassVarDec where
  kind : ClassScope
  type_ : VarType
  names : List String

/-- `SubroutineType` (src/ast.rs:56). -/
inductive SubroutineType
  | void
  | type_ (v : VarType)

/-- `Param` (src/ast.rs:61). -/
structure Param where
  var_type : VarType
  name : String

/-- `VarDec` (src/ast.rs:71). -/
structure VarDec where
  type_ : VarType
  names : List String

/-- `SubroutineBody` (src/ast.rs:66). -/
structure SubroutineBody where
  local_vars : List VarDec
  body : StatementList

/-- `SubroutineDec` (src/ast.rs:41). -/
structure SubroutineDec where
  kind : SubroutineKind
  type_ : SubroutineType
  name : String
  params : List Param
  body : SubroutineBody

/-- `Class` (src/ast.rs:6). -/
structure Class where
  name : String
  vars : List ClassVarDec
  subroutines : List SubroutineDec

/-- `Args.0.len()`. -/
def Args.len : Args → Nat
  | .mk v => v.length

/-- `VmContext` (src/vm_writer.rs:34). -/
structure VmContext where
  class_name : String
  class_scope : SymbolTable
  method_scope : SymbolTable
  method_name : Option String
  method_kind : Option SubroutineKind
  lable_count : Nat

/-- `VmContext::new` (src/vm_writer.rs:44). -/
def VmContext.new (class_name : String) : VmContext :=
  ⟨class_name, SymbolTable.new, SymbolTable.new, none, none, 0⟩

/-- `VmContext::start_subroutine` (src/vm_writer.rs:55). -/
def VmContext.start_subroutine (ctx : VmContext) (name : String)
    (kind : SubroutineKind) : VmContext :=
  { ctx with method_scope := SymbolTable.new, method_name := some name,
             method_kind := some kind }

/-- `VmContext::define_class_var` (src/vm_writer.rs:61). -/
def VmContext.define_class_var (ctx : VmContext) (name : String) (type_ : VarType)
    (var_kind : VarKind) : VmContext :=
  { ctx with class_scope := ctx.class_scope.define name type_ var_kind }

/-- `VmContext::define_method_var` (src/vm_writer.rs:65). -/
def VmContext.define_method_var (ctx : VmContext) (name : String) (type_ : VarType)
    (var_kind : VarKind) : VmContext :=
  { ctx with method_scope := ctx.method_scope.define name type_ var_kind }

/-- `VmContext::inc_label` (src/vm_writer.rs:69): returns the current label
counter and bumps it. -/
def VmContext.inc_label (ctx : VmContext) : Nat × VmContext :=
  (ctx.lable_count, { ctx with lable_count := ctx.lable_count + 1 })

/-- `VmContext::current_function` (src/vm_writer.rs:75); the `expect` when no
subroutine is active is a panic, modelled as `none`. -/
def VmContext.current_function (ctx : VmContext) : Option String :=
  ctx.method_name.map (fun n => ctx.class_name ++ "." ++ n)

/-- `VmContext::function_kind` (src/vm_writer.rs:83). -/
def VmContext.function_kind (ctx : VmContext) : Option SubroutineKind :=
  ctx.method_kind

/-- `VmContext::find` (src/vm_writer.rs:90). -/
def VmContext.find (ctx : VmContext) (name : String) : Bool :=
  (ctx.method_scope.get name).isSome || (ctx.class_scope.get name).isSome

/-- `VmContext::get` (src/vm_writer.rs:94): subroutine scope first, then
class scope. -/
def VmContext.get (ctx : VmContext) (name : String) : Option Var :=
  match ctx.method_scope.get name with
  | some v => some v
  | none => ctx.class_scope.get name

/-- `VmContext::object_fields_count` (src/vm_writer.rs:103). -/
def VmContext.object_fields_count (ctx : VmContext) : Nat :=
  ctx.class_scope.var_count .field

/-- `VmContext::local_var_count` (src/vm_writer.rs:107). -/
def VmContext.local_var_count (ctx : VmContext) : Nat :=
  ctx.method_scope.var_count .«local»

/-- `VmContext::param_count` (src/vm_writer.rs:111). -/
def VmContext.param_count (ctx : VmContext) : Nat :=
  ctx.method_scope.var_count .argument

/-- `VmContext::local_variables` (src/vm_writer.rs:115): the values of the
subroutine scope's `HashMap` (iteration order unspecified in Rust; here the
entry-list order). -/
def VmContext.local_variables (ctx : VmContext) : List Var :=
  ctx.method_scope.table

/-- `VmCommandWriter::write_push` (src/vm_writer.rs:479). -/
def write_push (out : List String) (segment : Segment) (index : Nat) : List String :=
  out ++ ["push " ++ segment.name ++ " " ++ Nat.repr index]

/-- `VmCommandWriter::write_pop` (src/vm_writer.rs:483): its `writeln!`
format string spells `push`, so every pop the generator requests is emitted
as a `push` line. -/
def write_pop (out : List String) (segment : Segment) (index : Nat) : List String :=
  out ++ ["push " ++ segment.name ++ " " ++ Nat.repr index]

/-- `VmCommandWriter::write_arithmetic` (src/vm_writer.rs:487). -/
def write_arithmetic (out : List String) (command : String) : List String :=
  out ++ [command]

/-- `VmCommandWriter::write_label` (src/vm_writer.rs:491). -/
def write_label (out : List String) (label : String) : List String :=
  out ++ ["label " ++ label]

/-- `VmCommandWriter::write_goto` (src/vm_writer.rs:495). -/
def write_goto (out : List String) (label : String) : List String :=
  out ++ ["goto " ++ label]

/-- `VmCommandWriter::write_if_goto` (src/vm_writer.rs:499). -/
def write_if_goto (out : List String) (label : String) : List String :=
  out ++ ["if-goto " ++ label]

/-- `VmCommandWriter::write_call` (src/vm_writer.rs:503). -/
def write_call (out : List String) (name : String) (args_count : Nat) : List String :=
  out ++ ["call " ++ name ++ " " ++ Nat.repr args_count]

/-- `VmCommandWriter::write_function` (src/vm_writer.rs:507). -/
def write_function (out : List String) (name : String) (args_count : Nat) : List String :=
  out ++ ["function " ++ name ++ " " ++ Nat.repr args_count]

/-- `VmCommandWriter::write_return` (src/vm_writer.rs:511). -/
def write_return (out : List String) : List String :=
  out ++ ["return"]

/-- `impl VmWrite for Op` (src/vm_writer.rs:445); the context parameter of
the Rust method is unused. -/
def Op.write_vm (op : Op) (out : List String) : List String :=
  match op with
  | .add => write_arithmetic out "add"
  | .minus => write_arithmetic out "sub"
  | .multiply => write_call out "Math.multiply" 2
  | .divid => write_call out "Math.divide" 2
  | .and => write_arithmetic out "and"
  | .or => write_arithmetic out "or"
  | .greater => write_arithmetic out "gt"
  | .less => write_arithmetic out "lt"
  | .euqal => write_arithmetic out "eq"

/-- `impl VmWrite for UnaryOp` (src/vm_writer.rs:461). -/
def UnaryOp.write_vm (op : UnaryOp) (out : List String) : List String :=
  match op with
  | .neg => write_arithmetic out "neg"
  | .not => write_arithmetic out "not"

mutual

/-- `impl VmWrite for Expression` (src/vm_writer.rs:372): head term, then
each `(op, term)` pair, term before op. -/
def Expression.write_vm : Expression → VmContext → List String →
    Option (VmContext × List String)
  | .mk term op_terms, ctx, out => do
      let (ctx, out) ← Term.write_vm term ctx out
      OpTermList.write_vm op_terms ctx out

/-- The `for op_term in self.op_terms` loop (src/vm_writer.rs:376-379). -/
def OpTermList.write_vm : OpTermList → VmContext → List String →
    Option (VmContext × List String)
  | .nil, ctx, out => some (ctx, out)
  | .cons (.mk op term) rest, ctx, out => do
      let (ctx, out) ← Term.write_vm term ctx out
      let out := Op.write_vm op out
      OpTermList.write_vm rest ctx out

/-- `impl VmWrite for Term` (src/vm_writer.rs:383).  A string constant is
registered (if new) as a Local variable of class type `String` named by its
own text, and the emitted code is `push local <its index>` — `String.new` is
not called here. -/
def Term.write_vm : Term → VmContext → List String → Option (VmContext × List String)
  | .integerConst v, ctx, out => some (ctx, write_push out .constant v)
  | .keywordConst v, ctx, out =>
      match v with
      | .null | .«false» => some (ctx, write_push out .constant 0)
      | .«true» => some (ctx, UnaryOp.write_vm .not (write_push out .constant 0))
      | .this => some (ctx, write_push out .pointer 0)
  | .stringConst v, ctx, out =>
      let ctx := if ctx.find v = false then
          ctx.define_method_var v (VarType.cls "String") .«local»
        else ctx
      (ctx.get v).map (fun var => (ctx, write_push out .«local» var.index))
  | .varName v, ctx, out =>
      (ctx.get v).map (fun var => (ctx, write_push out var.kind.toSegment var.index))
  | .expression e, ctx, out => Expression.write_vm e ctx out
  | .array a, ctx, out => Arr.write_vm a ctx out
  | .unaryExpression u, ctx, out => UnaryExpression.write_vm u ctx out
  | .subRoutineCall c, ctx, out => SubroutineCall.write_vm c ctx out

/-- `impl VmWrite for Array` (src/vm_writer.rs:427): index, base, `add`,
`write_pop pointer 1`, `push that 0`. -/
def Arr.write_vm : Arr → VmContext → List String → Option (VmContext × List String)
  | .mk name index, ctx, out => do
      let (ctx, out) ← Expression.write_vm index ctx out
      let var ← ctx.get name
      let out := write_push out var.kind.toSegment var.index
      let out := Op.write_vm .add out
      let out := write_pop out .pointer 1
      let out := write_push out .that 0
      some (ctx, out)

/-- `impl VmWrite for UnaryExpression` (src/vm_writer.rs:420). -/
def UnaryExpression.write_vm : UnaryExpression → VmContext → List String →
    Option (VmContext × List String)
  | .mk unary_op term, ctx, out => do
      let (ctx, out) ← Term.write_vm term ctx out
      some (ctx, UnaryOp.write_vm unary_op out)

/-- `impl VmWrite for SubroutineCall` (src/vm_writer.rs:316). -/
def SubroutineCall.write_vm : SubroutineCall → VmContext → List String →
    Option (VmContext × List String)
  | .internal v, ctx, out => InternalCall.write_vm v ctx out
  | .external v, ctx, out => ExternalCall.write_vm v ctx out

/-- `impl VmWrite for InternalCall` (src/vm_writer.rs:325): push `pointer 0`,
compile the args, `call <class>.<name> <args.0.len()>` — the arg count does
not include the pushed receiver. -/
def InternalCall.write_vm : InternalCall → VmContext → List String →
    Option (VmContext × List String)
  | .mk name args, ctx, out => do
      let out := write_push out .pointer 0
      let (ctx, out) ← Args.write_vm args ctx out
      let func_name := ctx.class_name ++ "." ++ name
      some (ctx, write_call out func_name args.len)

/-- `impl VmWrite for ExternalCall` (src/vm_writer.rs:338): when the receiver
resolves to a variable of class type, push it, compile the args and emit
`call <ReceiverClass>.<receiver-name> <args.0.len()>` (note `self.name`, not
`self.subroutine_name`); a non-class receiver type panics; an unresolved
receiver emits `call <name>.<subroutine_name> <args.0.len()>`. -/
def ExternalCall.write_vm : ExternalCall → VmContext → List String →
    Option (VmContext × List String)
  | .mk name subroutine_name args, ctx, out =>
      match ctx.get name with
      | some var =>
          match var.type_ with
          | .cls c => do
              let out := write_push out var.kind.toSegment var.index
              let (ctx, out) ← Args.write_vm args ctx out
              let func_name := c ++ "." ++ name
              some (ctx, write_call out func_name args.len)
          | _ => none
      | none => do
          let (ctx, out) ← Args.write_vm args ctx out
          let func_name := name ++ "." ++ subroutine_name
          some (ctx, write_call out func_name args.len)

/-- `impl VmWrite for Args` (src/vm_writer.rs:364). -/
def Args.write_vm : Args → VmContext → List String → Option (VmContext × List String)
  | .mk v, ctx, out => ExpressionList.write_vm v ctx out

/-- The `for arg in self.0` loop (src/vm_writer.rs:366-368). -/
def ExpressionList.write_vm : ExpressionList → VmContext → List String →
    Option (VmContext × List String)
  | .nil, ctx, out => some (ctx, out)
  | .cons e rest, ctx, out => do
      let (ctx, out) ← Expression.write_vm e ctx out
      ExpressionList.write_vm rest ctx out

end

/-- `impl VmWrite for LetStatement` (src/vm_writer.rs:221): the right-hand
side is compiled FIRST; an array target then compiles the index, pushes the
base, `add`s, and requests `pop pointer 1` / `pop that 0` (both printed as
`push` by `write_pop`). -/
def LetStatement.write_vm (s : LetStatement) (ctx : VmContext) (out : List String) :
    Option (VmContext × List String) := do
  let (ctx, out) ← Expression.write_vm s.right_expr ctx out
  match s.array_index with
  | some index => do
      let (ctx, out) ← Expression.write_vm index ctx out
      let var ← ctx.get s.var_name
      let out := write_push out var.kind.toSegment var.index
      let out := Op.write_vm .add out
      let out := write_pop out .pointer 1
      let out := write_pop out .that 0
      some (ctx, out)
  | none => do
      let var ← ctx.get s.var_name
      some (ctx, write_pop out var.kind.toSegment var.index)

/-- `impl VmWrite for DoStatement` (src/vm_writer.rs:271). -/
def DoStatement.write_vm (s : DoStatement) (ctx : VmContext) (out : List String) :
    Option (VmContext × List String) := do
  let (ctx, out) ← SubroutineCall.write_vm s.subroutine_call ctx out
  some (ctx, write_pop out .temp 0)

/-- `impl VmWrite for ReturnStatement` (src/vm_writer.rs:278): dispose every
Local `String` variable, then the return expression (or `push constant 0`),
then `return`. -/
def ReturnStatement.write_vm (s : ReturnStatement) (ctx : VmContext) (out : List String) :
    Option (VmContext × List String) := do
  let out := ctx.local_variables.foldl (fun out var =>
    if var.kind = .«local» ∧ var.type_ = VarType.cls "String" then
      write_call (write_push out .«local» var.index) "String.dispose" 1
    else out) out
  let (ctx, out) ← match s.expr with
    | some expr => Expression.write_vm expr ctx out
    | none => some (ctx, write_push out .constant 0)
  some (ctx, write_return out)

mutual

/-- `impl VmWrite for Statement` (src/vm_writer.rs:209). -/
def Statement.write_vm : Statement → VmContext → List String →
    Option (VmContext × List String)
  | .letS v, ctx, out => LetStatement.write_vm v ctx out
  | .ifS v, ctx, out => IfStatement.write_vm v ctx out
  | .whileS v, ctx, out => WhileStatement.write_vm v ctx out
  | .doS v, ctx, out => DoStatement.write_vm v ctx out
  | .returnS v, ctx, out => ReturnStatement.write_vm v ctx out

/-- A `for statement in ...` loop over statements. -/
def StatementList.write_vm : StatementList → VmContext → List String →
    Option (VmContext × List String)
  | .nil, ctx, out => some (ctx, out)
  | .cons s rest, ctx, out => do
      let (ctx, out) ← Statement.write_vm s ctx out
      StatementList.write_vm rest ctx out

/-- `impl VmWrite for IfStatement` (src/vm_writer.rs:247): allocate `if_N`
then `fi_N`; condition; `if-goto` to the then-label; else-body; `goto` end;
then-label; then-body; end-label. -/
def IfStatement.write_vm : IfStatement → VmContext → List String →
    Option (VmContext × List String)
  | .mk cond if_body else_body, ctx, out => do
      let (n1, ctx) := ctx.inc_label
      let then_label := "if_" ++ Nat.repr n1
      let (n2, ctx) := ctx.inc_label
      let end_label := "fi_" ++ Nat.repr n2
      let (ctx, out) ← Expression.write_vm cond ctx out
      let out := write_if_goto out then_label
      let (ctx, out) ← (match else_body with
        | .some els => StatementList.write_vm els ctx out
        | .none => some (ctx, out))
      let out := write_goto out end_label
      let out := write_label out then_label
      let (ctx, out) ← StatementList.write_vm if_body ctx out
      some (ctx, write_label out end_label)

/-- `impl VmWrite for WhileStatement` (src/vm_writer.rs:297): allocate
`loop_start_N` then `loop_end_N`; start label; condition; `if-goto` straight
to the end label (no negation in between); body; `goto` start; end label. -/
def WhileStatement.write_vm : WhileStatement → VmContext → List String →
    Option (VmContext × List String)
  | .mk cond body, ctx, out => do
      let (n1, ctx) := ctx.inc_label
      let loop_start_label := "loop_start_" ++ Nat.repr n1
      let (n2, ctx) := ctx.inc_label
      let loop_end_label := "loop_end_" ++ Nat.repr n2
      let out := write_label out loop_start_label
      let (ctx, out) ← Expression.write_vm cond ctx out
      let out := write_if_goto out loop_end_label
      let (ctx, out) ← StatementList.write_vm body ctx out
      let out := write_goto out loop_start_label
      some (ctx, write_label out loop_end_label)

end

/-- `impl VmWrite for SubroutineBody` (src/vm_writer.rs:164): define the
locals; emit `function <Class>.<name> <param_count>` — the PARAMETER count
(src/vm_writer.rs:172); push one `constant 0` per local; the per-kind
preamble (the `pop pointer 0` again printed as `push` by `write_pop`);
build a `String` object for every Local variable of type `String` already
in scope (string constants met later in the statements are not yet
defined); then the statements. -/
def SubroutineBody.write_vm (b : SubroutineBody) (ctx : VmContext) (out : List String) :
    Option (VmContext × List String) := do
  let ctx := b.local_vars.foldl (fun ctx var =>
    var.names.foldl (fun ctx id => ctx.define_method_var id var.type_ .«local») ctx) ctx
  let fname ← ctx.current_function
  let out := write_function out fname ctx.param_count
  let out := (List.range ctx.local_var_count).foldl (fun out _ =>
    write_push out .constant 0) out
  let kind ← ctx.function_kind
  let out := if kind = .method then write_pop (write_push out .argument 0) .pointer 0
    else out
  let out := if kind = .constructor then
      write_pop (write_call (write_push out .constant ctx.object_fields_count)
        "Memory.alloc" 1) .pointer 0
    else out
  let out := ctx.local_variables.foldl (fun out var =>
    if var.kind = .«local» ∧ var.type_ = VarType.cls "String" then
      let out := write_call (write_push out .constant var.name.length) "String.new" 1
      let out := var.name.data.foldl (fun out c =>
        write_call (write_push out .constant c.toNat) "String.appendChar" 2) out
      write_pop out .«local» var.index
    else out) out
  StatementList.write_vm b.body ctx out

/-- `impl VmWrite for SubroutineDec` (src/vm_writer.rs:138): reset the
subroutine scope; a method gets the implicit `this` as argument 0; then the
declared parameters; then the body. -/
def SubroutineDec.write_vm (s : SubroutineDec) (ctx : VmContext) (out : List String) :
    Option (VmContext × List String) :=
  let ctx := ctx.start_subroutine s.name s.kind
  let ctx := if s.kind = .method then
      ctx.define_method_var "this" (VarType.cls ctx.class_name) .argument
    else ctx
  let ctx := s.params.foldl (fun ctx param =>
    ctx.define_method_var param.name param.var_type .argument) ctx
  SubroutineBody.write_vm s.body ctx out

/-- The `for subroutine in self.subroutines` loop (src/vm_writer.rs:132). -/
def subroutinesWriteVm : List SubroutineDec → VmContext → List String →
    Option (VmContext × List String)
  | [], ctx, out => some (ctx, out)
  | s :: rest, ctx, out => do
      let (ctx, out) ← SubroutineDec.write_vm s ctx out
      subroutinesWriteVm rest ctx out

/-- `impl VmWrite for Class` (src/vm_writer.rs:124): populate the class
scope from the class variable declarations, then compile each subroutine. -/
def Class.write_vm (c : Class) (ctx : VmContext) (out : List String) :
    Option (VmContext × List String) := do
  let ctx := c.vars.foldl (fun ctx var =>
    var.names.foldl (fun ctx id =>
      ctx.define_class_var id var.type_ var.kind.toVarKind) ctx) ctx
  subroutinesWriteVm c.subroutines ctx out

/-- `VmWriter::new` + `VmWriter::run` (src/vm_writer.rs:16-26): the VM lines
emitted for a class. -/
def vmWriterRun (ast : Class) : Option (List String) :=
  (Class.write_vm ast (VmContext.new ast.name) []).map (fun p => p.2)

end Jack

/-! ## Concrete inputs used by the claim theorems -/

/-- The `Point` class of the specification's constructor scenario:
`class Point { field int x,y; constructor Point new(int ax, int ay)
{ let x=ax; let y=ay; return this; } }`. -/
def pointClass : Jack.Class :=
  ⟨"Point", [⟨.field, .int, ["x", "y"]⟩],
   [⟨.constructor, .type_ (.cls "Point"), "new", [⟨.int, "ax"⟩, ⟨.int, "ay"⟩],
     ⟨[], .cons (.letS ⟨"x", none, .mk (.varName "ax") .nil⟩)
         (.cons (.letS ⟨"y", none, .mk (.varName "ay") .nil⟩)
         (.cons (.returnS ⟨some (.mk (.keywordConst .this) .nil)⟩) .nil))⟩⟩]⟩

/-- A context inside class `Main` with two arguments of class type `Point`:
`p` at argument 0 and `q` at argument 1 (as after compiling a function
header `void f(Point p, Point q)`). -/
def ctxPQ : Jack.VmContext :=
  ((Jack.VmContext.new "Main").define_method_var "p" (.cls "Point") .argument
    ).define_method_var "q" (.cls "Point") .argument

/-- A context inside class `Main` with locals `a : Array` (local 0) and
`i : int` (local 1). -/
def ctxArr : Jack.VmContext :=
  ((Jack.VmContext.new "Main").define_method_var "a" (.cls "Array") .«local»
    ).define_method_var "i" .int .«local»

/-- The statement `let a[i+1] = a[i];`. -/
def letArrStore : Jack.LetStatement :=
  ⟨"a", some (.mk (.varName "i") (.cons (.mk .add (.integerConst 1)) .nil)),
   .mk (.array (.mk "a" (.mk (.varName "i") .nil)) ) .nil⟩

/-- `class Main { function void f() { return "ab"; } }` — a subroutine whose
only statement uses the string constant `"ab"`. -/
def stringConstClass : Jack.Class :=
  ⟨"Main", [], [⟨.function, .void, "f", [],
    ⟨[], .cons (.returnS ⟨some (.mk (.stringConst "ab") .nil)⟩) .nil⟩⟩]⟩

/-- The assembler input of the variable-allocation scenario:
`@LOOP` `(LOOP)` `@i` `M=1` `@LOOP` `0;JMP`. -/
def c8Input : List String := ["@LOOP", "(LOOP)", "@i", "M=1", "@LOOP", "0;JMP"]

/-- Two VM files translated in one invocation, with comparisons and calls in
both files. -/
def twoVmFiles : List (String × List String) :=
  [("A", ["eq", "call Main.f 0"]), ("B", ["gt", "lt", "call Main.f 1"])]

/-! # Theorems

First the characterisation of `Nat.repr` and of trailing label indices, then
the infrastructure for the label-freshness invariant, then one theorem (plus
witness or counterexample) per specification claim. -/

theorem digitVal_digitChar {d : Nat} (h : d < 10) : digitVal (Nat.digitChar d) = d := by
  interval_cases d <;> rfl

theorem isDigit_digitChar {d : Nat} (h : d < 10) : (Nat.digitChar d).isDigit = true := by
  interval_cases d <;> rfl

theorem decChars_isDigit (n : Nat) : ∀ c ∈ decChars n, c.isDigit = true := by
  induction n using Nat.strong_induction_on with
  | _ n ih =>
    rw [decChars]
    split
    · intro c hc
      simp only [List.mem_singleton] at hc
      subst hc
      exact isDigit_digitChar (by omega)
    · intro c hc
      rcases List.mem_append.mp hc with h1 | h2
      · exact ih (n / 10) (Nat.div_lt_self (by omega) (by omega)) c h1
      · simp only [List.mem_singleton] at h2
        subst h2
        exact isDigit_digitChar (Nat.mod_lt _ (by omega))

theorem foldl_decChars (n : Nat) :
    ∀ a : Nat, (decChars n).foldl (fun a c => a * 10 + digitVal c) a =
      a * 10 ^ (decChars n).length + n := by
  induction n using Nat.strong_induction_on with
  | _ n ih =>
    intro a
    rw [decChars]
    split
    · simp [digitVal_digitChar (by omega : n < 10)]
    · rw [List.foldl_append, ih (n / 10) (Nat.div_lt_self (by omega) (by omega)) a]
      simp only [List.foldl_cons, List.foldl_nil, List.length_append, List.length_singleton]
      rw [digitVal_digitChar (Nat.mod_lt _ (by omega))]
      rw [pow_succ]
      have := Nat.div_add_mod n 10
      ring_nf
      omega

theorem charsVal_decChars (n : Nat) : charsVal (decChars n) = n := by
  unfold charsVal
  rw [foldl_decChars]
  simp

theorem decChars_ne_nil (n : Nat) : decChars n ≠ [] := by
  rw [decChars]
  split <;> simp

/-- With enough fuel, `Nat.toDigitsCore` computes `decChars`. -/
theorem toDigitsCore_eq_decChars :
    ∀ (fuel n : Nat) (acc : List Char), n < 10 ^ fuel → 0 < fuel →
      Nat.toDigitsCore 10 fuel n acc = decChars n ++ acc := by
  intro fuel
  induction fuel with
  | zero => intro n acc h hf; omega
  | succ f ihf =>
    intro n acc h _
    rw [Nat.toDigitsCore]
    by_cases hz : n / 10 = 0
    · have hn : n < 10 := by
        rcases Nat.lt_or_ge n 10 with h10 | h10
        · exact h10
        · exact absurd hz (by
            have : 1 ≤ n / 10 := Nat.one_le_div_iff (by omega) |>.mpr h10
            omega)
      rw [if_pos hz, decChars]
      rw [dif_pos hn, Nat.mod_eq_of_lt hn]
      simp
    · have hn : 10 ≤ n := by
        by_contra hlt
        exact hz (Nat.div_eq_of_lt (by omega))
      have hdiv : n / 10 < 10 ^ f := by
        rw [pow_succ] at h
        exact Nat.div_lt_of_lt_mul (by omega)
      have hf : 0 < f := by
        by_contra hc
        have : f = 0 := by omega
        subst this
        simp at hdiv
        omega
      rw [if_neg hz, ihf (n / 10) _ hdiv hf]
      conv_rhs => rw [decChars]
      rw [dif_neg (by omega)]
      simp

theorem lt_ten_pow_succ (n : Nat) : n < 10 ^ (n + 1) :=
  lt_of_lt_of_le (Nat.lt_pow_self (by omega) n)
    (Nat.pow_le_pow_right (by omega) (Nat.le_succ n))

theorem repr_data (n : Nat) : (Nat.repr n).data = decChars n := by
  show (List.asString (Nat.toDigits 10 n)).data = decChars n
  rw [Nat.toDigits, toDigitsCore_eq_decChars (n + 1) n [] (lt_ten_pow_succ n) (by omega)]
  simp [List.asString]

theorem takeWhile_append_cons {p : Char → Bool} {l₁ l₂ : List Char} {x : Char}
    (h₁ : ∀ a ∈ l₁, p a = true) (h₂ : p x = false) :
    (l₁ ++ x :: l₂).takeWhile p = l₁ := by
  induction l₁ with
  | nil => simp [List.takeWhile_cons, h₂]
  | cons a l ih =>
    have ha : p a = true := h₁ a (by simp)
    simp only [List.cons_append, List.takeWhile_cons, ha, ite_true]
    rw [ih (fun b hb => h₁ b (by simp [hb]))]

theorem trailNat_shape (s : String) (pre : List Char) (sep : Char) (n : Nat)
    (hs : s.data = pre ++ sep :: (Nat.repr n).data ++ [')'])
    (hsep : sep.isDigit = false) : trailNat s = n := by
  unfold trailNat
  rw [hs, repr_data]
  have hdl : (pre ++ sep :: decChars n ++ [')']).dropLast = pre ++ sep :: decChars n := by
    have : pre ++ sep :: decChars n ++ [')'] = (pre ++ sep :: decChars n) ++ [')'] := by
      simp
    rw [this, List.dropLast_concat]
  simp only [hdl]
  rw [show pre ++ sep :: decChars n = (pre ++ [sep]) ++ decChars n by simp]
  rw [List.reverse_append]
  rw [show (pre ++ [sep]).reverse = sep :: pre.reverse by simp]
  rw [takeWhile_append_cons (fun a ha => decChars_isDigit n a (by
        have := List.mem_reverse.mp ha; exact this)) hsep]
  rw [List.reverse_reverse, charsVal_decChars]

theorem trailNat_compLabelLine (c : String) (n : Nat) :
    trailNat (VmT.compLabelLine c n) = n := by
  refine trailNat_shape _ ('(' :: c.data) '_' n ?_ rfl
  simp [VmT.compLabelLine]

theorem trailNat_retLabelLine (f : String) (n : Nat) :
    trailNat (VmT.retLabelLine f n) = n := by
  refine trailNat_shape _ ('(' :: 'E' :: 'n' :: 'd' :: '$' :: f.data) '$' n ?_ rfl
  simp [VmT.retLabelLine, VmT.retLabelName]

theorem chunksAppend_bounds {α : Type} (f : Nat → α → List String)
    (hf : ∀ n x, ∀ l ∈ f n x, n ≤ trailNat l ∧ trailNat l < n + (f n x).length) :
    ∀ (xs : List α) (n : Nat), ∀ l ∈ VmT.chunksAppend f n xs,
      n ≤ trailNat l ∧ trailNat l < n + (VmT.chunksAppend f n xs).length := by
  intro xs
  induction xs with
  | nil => intro n l hl; simp [VmT.chunksAppend] at hl
  | cons x xs ih =>
    intro n l hl
    rw [VmT.chunksAppend] at hl
    rw [VmT.chunksAppend, List.length_append]
    rcases List.mem_append.mp hl with h1 | h2
    · have hb := hf n x l h1
      have hlen : 0 < (f n x).length :=
        List.length_pos.mpr (List.ne_nil_of_mem h1)
      exact ⟨hb.1, by omega⟩
    · have hb := ih (n + (f n x).length) l h2
      exact ⟨by omega, by omega⟩

theorem chunksAppend_pairwise {α : Type} (f : Nat → α → List String)
    (hf : ∀ n x, ∀ l ∈ f n x, n ≤ trailNat l ∧ trailNat l < n + (f n x).length)
    (hp : ∀ n x, (f n x).Pairwise (· ≠ ·)) :
    ∀ (xs : List α) (n : Nat), (VmT.chunksAppend f n xs).Pairwise (· ≠ ·) := by
  intro xs
  induction xs with
  | nil => intro n; simp [VmT.chunksAppend]
  | cons x xs ih =>
    intro n
    rw [VmT.chunksAppend]
    refine List.pairwise_append.mpr ⟨hp n x, ih _, ?_⟩
    intro a ha b hb
    have h1 := hf n x a ha
    have hlen : 0 < (f n x).length :=
      List.length_pos.mpr (List.ne_nil_of_mem ha)
    have h2 := chunksAppend_bounds f hf xs (n + (f n x).length) b hb
    intro hab
    rw [hab] at h1
    omega

theorem codeCompLabelsP_nil (n : Nat) : VmT.codeCompLabelsP n [] = [] := rfl

theorem codeCompLabelsP_cons (n : Nat) (p0 : String) (rest : List String) :
    VmT.codeCompLabelsP n (p0 :: rest) =
      if p0 = "eq" ∨ p0 = "gt" ∨ p0 = "lt" then [VmT.compLabelLine p0 n] else [] := rfl

theorem codeRetLabelsP_nil (n : Nat) : VmT.codeRetLabelsP n [] = [] := rfl

theorem codeRetLabelsP_one (n : Nat) (p0 : String) : VmT.codeRetLabelsP n [p0] = [] := rfl

theorem codeRetLabelsP_two (n : Nat) (p0 c1 : String) :
    VmT.codeRetLabelsP n [p0, c1] = [] := rfl

theorem codeRetLabelsP_cons3 (n : Nat) (p0 c1 c2 : String) (rest : List String) :
    VmT.codeRetLabelsP n (p0 :: c1 :: c2 :: rest) =
      if p0 = "call" ∧ (parseU32 c2).isSome then [VmT.retLabelLine c1 n] else [] := rfl

theorem codeCompLabelsP_bounds (n : Nat) (parts : List String) :
    ∀ l ∈ VmT.codeCompLabelsP n parts,
      n ≤ trailNat l ∧ trailNat l < n + (VmT.codeCompLabelsP n parts).length := by
  cases parts with
  | nil => simp [codeCompLabelsP_nil]
  | cons p0 rest =>
    rw [codeCompLabelsP_cons]
    split
    · intro l hl
      simp only [List.mem_singleton] at hl
      subst hl
      rw [trailNat_compLabelLine]
      simp
    · simp

theorem codeCompLabelsP_pairwise (n : Nat) (parts : List String) :
    (VmT.codeCompLabelsP n parts).Pairwise (· ≠ ·) := by
  cases parts with
  | nil => simp [codeCompLabelsP_nil]
  | cons p0 rest => rw [codeCompLabelsP_cons]; split <;> simp

theorem codeRetLabelsP_bounds (n : Nat) (parts : List String) :
    ∀ l ∈ VmT.codeRetLabelsP n parts,
      n ≤ trailNat l ∧ trailNat l < n + (VmT.codeRetLabelsP n parts).length := by
  rcases parts with _ | ⟨p0, _ | ⟨c1, _ | ⟨c2, rest⟩⟩⟩
  · simp [codeRetLabelsP_nil]
  · simp [codeRetLabelsP_one]
  · simp [codeRetLabelsP_two]
  · rw [codeRetLabelsP_cons3]
    split
    · intro l hl
      simp only [List.mem_singleton] at hl
      subst hl
      rw [trailNat_retLabelLine]
      simp
    · simp

theorem codeRetLabelsP_pairwise (n : Nat) (parts : List String) :
    (VmT.codeRetLabelsP n parts).Pairwise (· ≠ ·) := by
  rcases parts with _ | ⟨p0, _ | ⟨c1, _ | ⟨c2, rest⟩⟩⟩
  · simp [codeRetLabelsP_nil]
  · simp [codeRetLabelsP_one]
  · simp [codeRetLabelsP_two]
  · rw [codeRetLabelsP_cons3]; split <;> simp

theorem codeRetLabelsP_not_call (n : Nat) (p0 : String) (rest : List String)
    (h : ¬ p0 = "call") : VmT.codeRetLabelsP n (p0 :: rest) = [] := by
  rcases rest with _ | ⟨c1, _ | ⟨c2, r⟩⟩
  · simp [codeRetLabelsP_one]
  · simp [codeRetLabelsP_two]
  · rw [codeRetLabelsP_cons3]; simp [h]

/-- What one dispatch step of `SingleVmTranslator::parse` does to the output
and the two label counters: it appends some lines `d`; the comparison (resp.
return-address) label lines it was due to generate are among `d`; and each
counter advances by exactly the number of labels generated from it. -/
theorem stepParts_spec (st : VmT.TState) (parts : List String) (st' : VmT.TState)
    (h : VmT.stepParts st parts = some st') :
    ∃ d, st'.output = st.output ++ d ∧
      st'.symbol_index = st.symbol_index + (VmT.codeCompLabelsP st.symbol_index parts).length ∧
      st'.return_index = st.return_index + (VmT.codeRetLabelsP st.return_index parts).length ∧
      List.Sublist (VmT.codeCompLabelsP st.symbol_index parts) d ∧
      List.Sublist (VmT.codeRetLabelsP st.return_index parts) d := by
  cases parts with
  | nil => simp [VmT.stepParts] at h
  | cons p0 rest =>
    rw [VmT.stepParts] at h
    by_cases h1 : p0 = "push"
    · subst h1
      rw [if_pos rfl] at h
      obtain ⟨d, hd, hst⟩ := Option.map_eq_some'.mp h
      subst hst
      exact ⟨d, rfl, by simp [codeCompLabelsP_cons],
        by simp [codeRetLabelsP_not_call],
        by simp [codeCompLabelsP_cons], by simp [codeRetLabelsP_not_call]⟩
    rw [if_neg h1] at h
    by_cases h2 : p0 = "pop"
    · subst h2
      rw [if_pos rfl] at h
      obtain ⟨d, hd, hst⟩ := Option.map_eq_some'.mp h
      subst hst
      exact ⟨d, rfl, by simp [codeCompLabelsP_cons],
        by simp [codeRetLabelsP_not_call],
        by simp [codeCompLabelsP_cons], by simp [codeRetLabelsP_not_call]⟩
    rw [if_neg h2] at h
    by_cases h3 : p0 = "label"
    · subst h3
      rw [if_pos rfl] at h
      obtain ⟨c1, hd, hst⟩ := Option.map_eq_some'.mp h
      subst hst
      exact ⟨_, rfl, by simp [codeCompLabelsP_cons],
        by simp [codeRetLabelsP_not_call],
        by simp [codeCompLabelsP_cons], by simp [codeRetLabelsP_not_call]⟩
    rw [if_neg h3] at h
    by_cases h4 : p0 = "goto"
    · subst h4
      rw [if_pos rfl] at h
      obtain ⟨c1, hd, hst⟩ := Option.map_eq_some'.mp h
      subst hst
      exact ⟨_, rfl, by simp [codeCompLabelsP_cons],
        by simp [codeRetLabelsP_not_call],
        by simp [codeCompLabelsP_cons], by simp [codeRetLabelsP_not_call]⟩
    rw [if_neg h4] at h
    by_cases h5 : p0 = "if-goto"
    · subst h5
      rw [if_pos rfl] at h
      obtain ⟨c1, hd, hst⟩ := Option.map_eq_some'.mp h
      subst hst
      exact ⟨_, rfl, by simp [codeCompLabelsP_cons],
        by simp [codeRetLabelsP_not_call],
        by simp [codeCompLabelsP_cons], by simp [codeRetLabelsP_not_call]⟩
    rw [if_neg h5] at h
    by_cases h6 : p0 = "function"
    · subst h6
      rw [if_pos rfl] at h
      obtain ⟨d, hd, hst⟩ := Option.map_eq_some'.mp h
      subst hst
      exact ⟨d.1, rfl, by simp [codeCompLabelsP_cons],
        by simp [codeRetLabelsP_not_call],
        by simp [codeCompLabelsP_cons], by simp [codeRetLabelsP_not_call]⟩
    rw [if_neg h6] at h
    by_cases h7 : p0 = "call"
    · subst h7
      rw [if_pos rfl] at h
      obtain ⟨d, hd, hst⟩ := Option.map_eq_some'.mp h
      subst hst
      rcases rest with _ | ⟨c1, _ | ⟨c2, rest3⟩⟩
      · simp [VmT.parse_c_call] at hd
      · simp [VmT.parse_c_call] at hd
      · rcases hp : parseU32 c2 with _ | nn
        · simp [VmT.parse_c_call, hp] at hd
        · rw [VmT.parse_c_call] at hd
          simp only [List.get?, hp, Option.pure_def, Option.bind_eq_bind, Option.some_bind] at hd
          obtain rfl := Option.some_inj.mp hd
          refine ⟨_, rfl, by simp [codeCompLabelsP_cons], ?_,
            by simp [codeCompLabelsP_cons], ?_⟩
          · rw [codeRetLabelsP_cons3]
            simp [hp]
          · rw [codeRetLabelsP_cons3]
            simp only [hp, Option.isSome_some, and_true, if_pos rfl]
            refine List.singleton_sublist.mpr ?_
            simp
    rw [if_neg h7] at h
    by_cases h8 : p0 = "return"
    · subst h8
      rw [if_pos rfl] at h
      obtain rfl := Option.some_inj.mp h
      exact ⟨_, rfl, by simp [codeCompLabelsP_cons],
        by simp [codeRetLabelsP_not_call],
        by simp [codeCompLabelsP_cons], by simp [codeRetLabelsP_not_call]⟩
    rw [if_neg h8] at h
    obtain ⟨d, hd, hst⟩ := Option.map_eq_some'.mp h
    subst hst
    rw [VmT.parse_c_arithmetic] at hd
    by_cases ha : p0 = "not" ∨ p0 = "neg"
    · rw [if_pos ha] at hd
      rcases ha with rfl | rfl
      all_goals
        obtain rfl := Option.some_inj.mp hd
        exact ⟨_, rfl, by simp [codeCompLabelsP_cons], by simp [codeRetLabelsP_not_call],
          by simp [codeCompLabelsP_cons], by simp [codeRetLabelsP_not_call]⟩
    rw [if_neg ha] at hd
    by_cases hb : p0 = "add" ∨ p0 = "sub" ∨ p0 = "and" ∨ p0 = "or"
    · rw [if_pos hb] at hd
      rcases hb with rfl | rfl | rfl | rfl
      all_goals
        obtain rfl := Option.some_inj.mp hd
        exact ⟨_, rfl, by simp [codeCompLabelsP_cons], by simp [codeRetLabelsP_not_call],
          by simp [codeCompLabelsP_cons], by simp [codeRetLabelsP_not_call]⟩
    rw [if_neg hb] at hd
    by_cases hc : p0 = "eq" ∨ p0 = "gt" ∨ p0 = "lt"
    · rw [if_pos hc] at hd
      rcases hc with rfl | rfl | rfl
      all_goals
        obtain rfl := Option.some_inj.mp hd
        refine ⟨_, rfl, by simp [codeCompLabelsP_cons], by simp [codeRetLabelsP_not_call],
          ?_, by simp [codeRetLabelsP_not_call]⟩
        rw [codeCompLabelsP_cons]
        rw [if_pos (by decide)]
        exact List.singleton_sublist.mpr (by simp)
    rw [if_neg hc] at hd
    simp at hd

theorem codesCompLabels_nil (n : Nat) : VmT.codesCompLabels n [] = [] := rfl

theorem codesCompLabels_cons (n : Nat) (c : String) (rest : List String) :
    VmT.codesCompLabels n (c :: rest) =
      VmT.codeCompLabelsP n (splitOnChar c ' ') ++
      VmT.codesCompLabels (n + (VmT.codeCompLabelsP n (splitOnChar c ' ')).length) rest := rfl

theorem codesRetLabels_nil (n : Nat) : VmT.codesRetLabels n [] = [] := rfl

theorem codesRetLabels_cons (n : Nat) (c : String) (rest : List String) :
    VmT.codesRetLabels n (c :: rest) =
      VmT.codeRetLabelsP n (splitOnChar c ' ') ++
      VmT.codesRetLabels (n + (VmT.codeRetLabelsP n (splitOnChar c ' ')).length) rest := rfl

theorem filesCompLabels_nil (n : Nat) : VmT.filesCompLabels n [] = [] := rfl

theorem filesCompLabels_cons (n : Nat) (stem : String) (content : List String)
    (rest : List (String × List String)) :
    VmT.filesCompLabels n ((stem, content) :: rest) =
      VmT.codesCompLabels n (stripLines content) ++
      VmT.filesCompLabels (n + (VmT.codesCompLabels n (stripLines content)).length) rest := rfl

theorem filesRetLabels_nil (n : Nat) : VmT.filesRetLabels n [] = [] := rfl

theorem filesRetLabels_cons (n : Nat) (stem : String) (content : List String)
    (rest : List (String × List String)) :
    VmT.filesRetLabels n ((stem, content) :: rest) =
      VmT.codesRetLabels n (stripLines content) ++
      VmT.filesRetLabels (n + (VmT.codesRetLabels n (stripLines content)).length) rest := rfl

/-- `parseAll` composes the per-step facts: across a whole file the output
grows by some `d` that contains the generated comparison and return labels
in order, and the counters advance by exactly the number of labels. -/
theorem parseAll_spec (codes : List String) : ∀ (st st' : VmT.TState),
    VmT.parseAll st codes = some st' →
    ∃ d, st'.output = st.output ++ d ∧
      st'.symbol_index = st.symbol_index + (VmT.codesCompLabels st.symbol_index codes).length ∧
      st'.return_index = st.return_index + (VmT.codesRetLabels st.return_index codes).length ∧
      List.Sublist (VmT.codesCompLabels st.symbol_index codes) d ∧
      List.Sublist (VmT.codesRetLabels st.return_index codes) d := by
  induction codes with
  | nil =>
    intro st st' h
    simp only [VmT.parseAll, Option.some_inj] at h
    subst h
    exact ⟨[], by simp, by simp [codesCompLabels_nil], by simp [codesRetLabels_nil],
      by simp [codesCompLabels_nil], by simp [codesRetLabels_nil]⟩
  | cons c rest ih =>
    intro st st' h
    rw [VmT.parseAll] at h
    obtain ⟨st₁, h₁, h₂⟩ := Option.bind_eq_some.mp h
    obtain ⟨d₁, ho₁, hsi₁, hri₁, hc₁, hr₁⟩ := stepParts_spec st (splitOnChar c ' ') st₁ h₁
    obtain ⟨d₂, ho₂, hsi₂, hri₂, hc₂, hr₂⟩ := ih st₁ st' h₂
    rw [hsi₁] at hsi₂ hc₂
    rw [hri₁] at hri₂ hr₂
    refine ⟨d₁ ++ d₂, ?_, ?_, ?_, ?_, ?_⟩
    · rw [ho₂, ho₁, List.append_assoc]
    · rw [codesCompLabels_cons, List.length_append]
      omega
    · rw [codesRetLabels_cons, List.length_append]
      omega
    · rw [codesCompLabels_cons]
      exact hc₁.append hc₂
    · rw [codesRetLabels_cons]
      exact hr₁.append hr₂

/-- The per-file loop of `VmTranslator::run` composes the per-file facts:
the labels of every file, each file starting from the counter values left by
the previous ones, occur in order in the concatenated output, and the final
counters account for all of them. -/
theorem translateFiles_spec (files : List (String × List String)) :
    ∀ (si ri : Nat) (out : List String) (si' ri' : Nat),
    VmT.translateFiles si ri files = some (out, si', ri') →
    List.Sublist (VmT.filesCompLabels si files) out ∧
    List.Sublist (VmT.filesRetLabels ri files) out ∧
    si' = si + (VmT.filesCompLabels si files).length ∧
    ri' = ri + (VmT.filesRetLabels ri files).length := by
  induction files with
  | nil =>
    intro si ri out si' ri' h
    simp only [VmT.translateFiles, Option.some_inj, Prod.mk.injEq] at h
    obtain ⟨rfl, rfl, rfl⟩ := h
    simp [filesCompLabels_nil, filesRetLabels_nil]
  | cons f rest ih =>
    intro si ri out si' ri' h
    obtain ⟨stem, content⟩ := f
    rw [VmT.translateFiles] at h
    obtain ⟨st, hst, h2⟩ := Option.bind_eq_some.mp h
    obtain ⟨⟨o2, si2, ri2⟩, htf, hpure⟩ := Option.bind_eq_some.mp h2
    simp only [Option.pure_def, Option.some_inj, Prod.mk.injEq] at hpure
    obtain ⟨rfl, rfl, rfl⟩ := hpure
    obtain ⟨d, ho, hsi, hri, hc, hr⟩ := parseAll_spec (stripLines content) _ st hst
    dsimp only at ho hsi hri hc hr
    simp only [List.nil_append] at ho
    subst ho
    obtain ⟨ihc, ihr, ihsi, ihri⟩ := ih st.symbol_index st.return_index o2 si2 ri2 htf
    rw [hsi] at ihc ihsi
    rw [hri] at ihr ihri
    refine ⟨?_, ?_, ?_, ?_⟩
    · rw [filesCompLabels_cons]
      exact hc.append ihc
    · rw [filesRetLabels_cons]
      exact hr.append ihr
    · rw [filesCompLabels_cons, List.length_append]
      omega
    · rw [filesRetLabels_cons, List.length_append]
      omega

theorem codesCompLabels_bounds (codes : List String) (n : Nat) :
    ∀ l ∈ VmT.codesCompLabels n codes,
      n ≤ trailNat l ∧ trailNat l < n + (VmT.codesCompLabels n codes).length := by
  unfold VmT.codesCompLabels
  exact chunksAppend_bounds _ (fun n c => codeCompLabelsP_bounds n (splitOnChar c ' ')) codes n

theorem codesCompLabels_pairwise (codes : List String) (n : Nat) :
    (VmT.codesCompLabels n codes).Pairwise (· ≠ ·) := by
  unfold VmT.codesCompLabels
  exact chunksAppend_pairwise _ (fun n c => codeCompLabelsP_bounds n (splitOnChar c ' '))
    (fun n c => codeCompLabelsP_pairwise n (splitOnChar c ' ')) codes n

theorem codesRetLabels_bounds (codes : List String) (n : Nat) :
    ∀ l ∈ VmT.codesRetLabels n codes,
      n ≤ trailNat l ∧ trailNat l < n + (VmT.codesRetLabels n codes).length := by
  unfold VmT.codesRetLabels
  exact chunksAppend_bounds _ (fun n c => codeRetLabelsP_bounds n (splitOnChar c ' ')) codes n

theorem codesRetLabels_pairwise (codes : List String) (n : Nat) :
    (VmT.codesRetLabels n codes).Pairwise (· ≠ ·) := by
  unfold VmT.codesRetLabels
  exact chunksAppend_pairwise _ (fun n c => codeRetLabelsP_bounds n (splitOnChar c ' '))
    (fun n c => codeRetLabelsP_pairwise n (splitOnChar c ' ')) codes n

theorem filesCompLabels_pairwise (files : List (String × List String)) (n : Nat) :
    (VmT.filesCompLabels n files).Pairwise (· ≠ ·) := by
  unfold VmT.filesCompLabels
  exact chunksAppend_pairwise _ (fun n p => codesCompLabels_bounds (stripLines p.2) n)
    (fun n p => codesCompLabels_pairwise (stripLines p.2) n) files n

theorem filesRetLabels_pairwise (files : List (String × List String)) (n : Nat) :
    (VmT.filesRetLabels n files).Pairwise (· ≠ ·) := by
  unfold VmT.filesRetLabels
  exact chunksAppend_pairwise _ (fun n p => codesRetLabels_bounds (stripLines p.2) n)
    (fun n p => codesRetLabels_pairwise (stripLines p.2) n) files n

/-! ## Claim theorems -/

/-- C1: compiling the `Point` constructor class.  The claim (and spec) expect
`function Point.new 0` (local count), `pop pointer 0`, two `pop this` stores
and `push pointer 0; return`.  The code instead emits `function Point.new 2`
(the PARAMETER count, src/vm_writer.rs:172) and, because `write_pop` prints
the word `push` (src/vm_writer.rs:483-485), not a single emitted command is
spelled `pop`.  This theorem evaluates the generator on exactly that class. -/
theorem c1_point_constructor_emission :
    Jack.vmWriterRun pointClass = some
      ["function Point.new 2", "push constant 2", "call Memory.alloc 1",
       "push pointer 0", "push argument 0", "push this 0", "push argument 1",
       "push this 1", "push pointer 0", "return"] ∧
    ∀ l ∈ (Jack.vmWriterRun pointClass).getD [], startsWith l "pop" = false := by
  decide

/-- C2: subroutine-call compilation.  The claim expects
`call <Class>.<methodName> <nArgs+1>`.  The code emits the arg count WITHOUT
the pushed receiver (src/vm_writer.rs:334,349) and, for a resolved external
receiver, uses the RECEIVER's name instead of the method name
(src/vm_writer.rs:348): `f()` inside `Main` gives `call Main.f 0` (not 1),
and `p.dist(q)` with `p q : Point` gives `call Point.p 1`
(not `call Point.dist 2`). -/
theorem c2_method_call_emission :
    (Jack.InternalCall.write_vm (.mk "f" (.mk .nil)) (Jack.VmContext.new "Main") []).map
        (fun p => p.2) = some ["push pointer 0", "call Main.f 0"] ∧
    (Jack.ExternalCall.write_vm
        (.mk "p" "dist" (.mk (.cons (.mk (.varName "q") .nil) .nil))) ctxPQ []).map
        (fun p => p.2) =
      some ["push argument 0", "push argument 1", "call Point.p 1"] := by
  decide

/-- C3: `let a[i+1] = a[i];` with `a : Array` at local 0 and `i : int` at
local 1.  The right-hand side IS compiled first (lines 1-5 of the output)
and the target address only afterwards, as the claim says; but the two final
commands the generator requests as `pop pointer 1; pop that 0` are emitted
spelled `push` (src/vm_writer.rs:483-485), so the output's last two lines
are not pop commands. -/
theorem c3_array_store_emission :
    (Jack.LetStatement.write_vm letArrStore ctxArr []).map (fun p => p.2) =
      some ["push local 1", "push local 0", "add", "push pointer 1", "push that 0",
            "push local 1", "push constant 1", "add", "push local 0", "add",
            "push pointer 1", "push that 0"] := by
  decide

/-- C4: `while (false) {}` compiles to label `loop_start_0`; condition;
`if-goto loop_end_1`; `goto loop_start_0`; label `loop_end_1` — the branch
to the end label follows the condition DIRECTLY, with no negation
(src/vm_writer.rs:304-305).  The repo's own VM translator turns `if-goto`
into `D;JNE` (branch on nonzero, i.e. on a TRUE condition,
src/vm_translator.rs:356-362), so the loop body is entered exactly when the
condition is false — the opposite of the claim.  (The two labels also carry
consecutive indices `N` and `N+1`, not one shared `N`.) -/
theorem c4_while_emission :
    (Jack.WhileStatement.write_vm (.mk (.mk (.keywordConst .«false») .nil) .nil)
        (Jack.VmContext.new "Main") []).map (fun p => p.2) =
      some ["label loop_start_0", "push constant 0", "if-goto loop_end_1",
            "goto loop_start_0", "label loop_end_1"] ∧
    VmT.stepParts ⟨"Main", [], 0, 0, "Main.f"⟩ ["if-goto", "loop_end_1"] =
      some ⟨"Main", ["@SP", "AM=M-1", "D=M", "@Main.f$loop_end_1", "D;JNE"],
            0, 0, "Main.f"⟩ := by
  decide

/-- C5: a subroutine whose body is `return "ab";`.  The claim expects, at the
point of use, `push constant 2; call String.new 1` and two `appendChar`
calls.  Instead the generator registers `"ab"` as a Local variable and emits
`push local 0` (src/vm_writer.rs:397-407); the `String.new` preamble of
`SubroutineBody::write_vm` (src/vm_writer.rs:191-201) ran before the
statement was compiled, when the constant was not yet defined, so no
`String.new` appears anywhere in the output. -/
theorem c5_string_constant_emission :
    Jack.vmWriterRun stringConstClass =
      some ["function Main.f 0", "push local 0", "return"] ∧
    ∀ l ∈ (Jack.vmWriterRun stringConstClass).getD [],
      Tok.findSubstring l "String.new" = none := by
  decide

/-- C6: `pop static 0` in file `Foo`.  The static arm of `parse_c_pop`
(src/vm_translator.rs:332) emits the bare line `R15` with no `@`, which is
not a valid Hack statement: the repo's own assembler, fed that line, fails
its comp-table lookup (a panic). -/
theorem c6_pop_static_emission :
    VmT.parse_c_pop "Foo" ["pop", "static", "0"] =
      some ["@Foo.0", "D=A", "R15", "M=D",
            "@SP", "AM=M-1", "D=M", "@R15", "A=M", "M=D"] ∧
    Asm.parse_c_command "R15" = none := by
  decide

/-- C7: a C-instruction with both dest and jump, `D=D+1;JMP`.  The comp
substring is taken with length `semicolon_loc - equal_loc + 1`
(src/assembler.rs:226) — two chars too many — yielding `"D+1;J"`, whose
comp-table lookup panics: the assembler fails on EVERY `dest=comp;jmp` line,
while the same comp with only a dest or only a jump assembles fine. -/
theorem c7_dest_comp_jmp :
    Asm.parse_c_command "D=D+1;JMP" = none ∧
    Asm.parse_c_command "D=D+1" = some "1110011111010000" ∧
    Asm.parse_c_command "0;JMP" = some "1110101010000111" := by
  decide

/-- C8 counterexample: on `@LOOP (LOOP) @i M=1 @LOOP 0;JMP` the claim says
`LOOP` resolves to 0; the assembler resolves it to 1. -/
theorem c8_loop_not_zero :
    ¬ (Asm.assemblerRun c8Input).map (fun r => Asm.tableGet r.1 "LOOP") =
      some (some 0) := by
  decide

/-- C8 amended: `(LOOP)` follows one instruction (`@LOOP`), so pass 1 maps
`LOOP` to the next instruction index 1 (not 0); the variable `i` is
allocated at 16; the five emitted words reflect this. -/
theorem c8_label_and_variable_resolution :
    (Asm.assemblerRun c8Input).map
        (fun r => (Asm.tableGet r.1 "LOOP", Asm.tableGet r.1 "i", r.2.2)) =
      some (some 1, some 16,
        ["0000000000000001", "0000000000010000", "1110111111001000",
         "0000000000000001", "1110101010000111"]) ∧
    Asm.tableGet (Asm.pass1Table c8Input) "LOOP" = some 1 := by
  decide

/-- C9: in any single `VmTranslator::run` invocation over any file sequence,
the comparison label-definition lines (`(eq_N)`/`(gt_N)`/`(lt_N)`, collected
by `filesCompLabels` with the per-file counter threading of `run`) occur in
the produced output and are pairwise distinct, and likewise the call
return-address labels (`(End$f$N)`, `filesRetLabels`) — the counters persist
across files, so indices never repeat. -/
theorem c9_labels_globally_unique (multi : Bool) (files : List (String × List String))
    (out : List String) (h : VmT.vmTranslatorRun multi files = some out) :
    List.Sublist (VmT.filesCompLabels 0 files) out ∧
    (VmT.filesCompLabels 0 files).Pairwise (· ≠ ·) ∧
    List.Sublist (VmT.filesRetLabels 0 files) out ∧
    (VmT.filesRetLabels 0 files).Pairwise (· ≠ ·) := by
  rw [VmT.vmTranslatorRun] at h
  obtain ⟨⟨o, si, ri⟩, htf, hpure⟩ := Option.bind_eq_some.mp h
  simp only [Option.pure_def, Option.some_inj] at hpure
  subst hpure
  obtain ⟨hc, hr, _, _⟩ := translateFiles_spec files 0 0 o si ri htf
  have hboot : List.Sublist o ((if multi then VmT.bootstrapLines else []) ++ o) :=
    List.sublist_append_right _ o
  exact ⟨hc.trans hboot, filesCompLabels_pairwise files 0,
    hr.trans hboot, filesRetLabels_pairwise files 0⟩

/-- C9 witness: a concrete two-file invocation (`eq` and a call in file `A`;
`gt`, `lt` and a call in file `B`). -/
theorem c9_witness :
    List.Sublist (VmT.filesCompLabels 0 twoVmFiles)
      ((VmT.vmTranslatorRun false twoVmFiles).getD []) ∧
    (VmT.filesCompLabels 0 twoVmFiles).Pairwise (· ≠ ·) ∧
    List.Sublist (VmT.filesRetLabels 0 twoVmFiles)
      ((VmT.vmTranslatorRun false twoVmFiles).getD []) ∧
    (VmT.filesRetLabels 0 twoVmFiles).Pairwise (· ≠ ·) :=
  c9_labels_globally_unique false twoVmFiles
    ((VmT.vmTranslatorRun false twoVmFiles).getD []) (by decide)

/-- C10 counterexample: a line with an unterminated string literal is
tokenized without any error — the tokenizer silently produces a (nonempty)
token stream, with the rest of the line as a `StringConstant`. -/
theorem c10_unterminated_string_tokenizes :
    Tok.jackTokenize ["let s = \"abc;"] =
      [⟨.keyword, "let", 0⟩, ⟨.identifier, "s", 0⟩, ⟨.symbol, "=", 0⟩,
       ⟨.stringConstant, "abc;", 0⟩] ∧
    Tok.jackTokenize ["let s = \"abc;"] ≠ [] := by
  decide

/-- C10 amended: the tokenizer has no error path.  An unterminated string
literal yields a `StringConstant` holding the rest of the line, and an
unterminated block comment silently swallows every following line; both
inputs produce a token stream. -/
theorem c10_silent_tokenization :
    Tok.jackTokenize ["let s = \"abc;"] =
      [⟨.keyword, "let", 0⟩, ⟨.identifier, "s", 0⟩, ⟨.symbol, "=", 0⟩,
       ⟨.stringConstant, "abc;", 0⟩] ∧
    Tok.jackTokenize ["let x; /* oops", "junk junk"] =
      [⟨.keyword, "let", 0⟩, ⟨.identifier, "x", 0⟩, ⟨.symbol, ";", 0⟩] := by
  decide

end N2T